import Mathlib

/-! Spring-trail particle animation (`src/script.js`): embedding and verified properties.

Numbers are modelled in exact arithmetic: every definition is written over an
arbitrary linearly ordered field `K` (evaluated at `ℚ`, analysed at `ℝ`), so
rounding, `Infinity` and `NaN` are outside the model.  The library functions
`Math.sin`, `Math.cos`, `Math.sqrt`, the constant `Math.PI` and the stream of
`Math.random()` draws are parameters.

JavaScript objects have identity.  The program assigns to the fields of a
`Vector` in place at two places only (`targets[i].x = …` in `updateTargets`
and `this.mouse.x = …` in `IO.bindMouse`); every `Vector` method returns a new
object.  A reference to a `Vector` is therefore either the identity of an
object held in the store (`VecRef.obj`), or a freshly created object that no
in-place assignment of the program can reach, represented by its value
(`VecRef.fresh`).
-/

namespace VD

set_option linter.unusedSectionVars false

variable {K : Type} [LinearOrderedField K]

/-! ## `range` -/

/-- Line 1: `range = n => Array.from(Array(n).keys())`, the indices `0 … n-1`. -/
def range (n : Nat) : List Nat := List.range n

/-! ## The `Math` object -/

/-- The members of the built-in `Math` object that the program uses. -/
structure Math (K : Type) where
  sin : K → K
  cos : K → K
  sqrt : K → K
  PI : K

/-! ## `class Vector` -/

/-- Lines 3-8: a `Vector` object holds two numbers. -/
@[ext]
structure Vector (K : Type) where
  x : K
  y : K
deriving DecidableEq

namespace Vector

/-- Lines 5-8: `constructor(x = 0, y = 0)`; an omitted argument is `none`. -/
def new (x y : Option K) : Vector K :=
  { x := x.getD 0, y := y.getD 0 }

/-- Lines 10-12: `reflect()`. -/
def reflect (self : Vector K) : Vector K :=
  new (some (-self.x)) (some (-self.y))

/-- Lines 14-16: `add(vector)`. -/
def add (self vector : Vector K) : Vector K :=
  new (some (self.x + vector.x)) (some (self.y + vector.y))

/-- Lines 18-20: `subtract(vector)`. -/
def subtract (self vector : Vector K) : Vector K :=
  new (some (self.x - vector.x)) (some (self.y - vector.y))

/-- Lines 22-24: `scale(scalar = 1)`; an omitted factor is `none`. -/
def scale (self : Vector K) (scalar : Option K) : Vector K :=
  new (some (self.x * scalar.getD 1)) (some (self.y * scalar.getD 1))

/-- Lines 26-28: `length()`. -/
def length (m : Math K) (self : Vector K) : K :=
  m.sqrt (self.x * self.x + self.y * self.y)

/-- Lines 30-35: `distance(vector)`. -/
def distance (m : Math K) (self vector : Vector K) : K :=
  let dx := self.x - vector.x
  let dy := self.y - vector.y
  m.sqrt (dx * dx + dy * dy)

end Vector

/-! ## Object identity of vectors -/

/-- A reference to a `Vector` object: a stored object (by identity) or a
fresh object (by value). -/
inductive VecRef (K : Type) where
  | obj (id : Nat)
  | fresh (v : Vector K)
deriving DecidableEq

/-- The current contents of the stored `Vector` objects, by identity. -/
abbrev Store (K : Type) := Nat → Vector K

/-- Reading the fields of the object a reference points to. -/
def Store.read (s : Store K) : VecRef K → Vector K
  | .obj id => s id
  | .fresh v => v

/-- The in-place assignments `o.x = v.x; o.y = v.y` to the stored object `id`. -/
def Store.assign (s : Store K) (id : Nat) (v : Vector K) : Store K :=
  fun j => if j = id then { x := v.x, y := v.y } else s j

/-! ## `class IO` -/

/-- Lines 39-53: the input object; `mouse` is overwritten in place by the
`mousemove` listener. -/
structure Io (K : Type) where
  mouse : Vector K

/-- Lines 41-44: `constructor()`: `this.mouse = new Vector()`. -/
def Io.new : Io K :=
  { mouse := Vector.new none none }

/-- Lines 46-51: the effect of one `mousemove` event at `(x, y)`. -/
def Io.mouseMove (self : Io K) (x y : K) : Io K :=
  { self with mouse := { x := x, y := y } }

/-! ## `class Point` and `class SpringPoint` -/

/-- Lines 55-61: the fields of a `Point`. -/
structure Point (K : Type) where
  position : VecRef K
  color : String
  size : K

/-- Lines 57-61: `constructor({ position = new Vector(), color = '#f00', size = 3 })`. -/
def Point.new (position : Option (VecRef K)) (color : Option String) (size : Option K) :
    Point K :=
  { position := position.getD (.fresh (Vector.new none none))
    color := color.getD "#f00"
    size := size.getD 3 }

/-- Lines 75-83: the fields of a `SpringPoint`. -/
structure SpringPoint (K : Type) extends Point K where
  velocity : VecRef K
  target : VecRef K
  elasticity : K
  damping : K

/-- The configuration object passed to the `SpringPoint` and `SpringTrail`
constructors; an absent property is `none`. -/
structure Config (K : Type) where
  target : Option (VecRef K)
  elasticity : Option K
  color : Option String
  size : Option K
  damping : Option K
  trailSize : Option Nat

namespace SpringPoint

/-- Lines 77-83: `constructor({ target = new Vector(), elasticity = 1e-1,
color = 'rgba(255, 0, 0, .6)', size = 3, damping = 1e-1 })`.  The position is
the very object passed as target. -/
def new (config : Config K) : SpringPoint K :=
  let target := config.target.getD (.fresh (Vector.new none none))
  let elasticity := config.elasticity.getD 1e-1
  let color := config.color.getD "rgba(255, 0, 0, .6)"
  let size := config.size.getD 3
  let damping := config.damping.getD 1e-1
  { toPoint := Point.new (some target) (some color) (some size)
    velocity := .fresh (Vector.new none none)
    target := target
    elasticity := elasticity
    damping := damping }

/-- Lines 85-93: `updateVelocity()`. -/
def updateVelocity (s : Store K) (self : SpringPoint K) : SpringPoint K :=
  let damping := (s.read self.velocity).scale (some self.damping)
  let force := (((s.read self.target).subtract (s.read self.position)).scale
    (some self.elasticity)).subtract damping
  { self with velocity := .fresh ((s.read self.velocity).add force) }

/-- Lines 95-97: `updatePosition()`. -/
def updatePosition (s : Store K) (self : SpringPoint K) : SpringPoint K :=
  { self with position := .fresh ((s.read self.position).add (s.read self.velocity)) }

/-- Lines 99-102: `update()`. -/
def update (s : Store K) (self : SpringPoint K) : SpringPoint K :=
  updateVelocity s (updatePosition s self)

end SpringPoint

/-! ## `class SpringTrail` -/

/-- Lines 106-116: a `SpringTrail` is a `SpringPoint` with a trail of points. -/
structure SpringTrail (K : Type) extends SpringPoint K where
  trail : List (SpringPoint K)

namespace SpringTrail

/-- Lines 110-115: the callback of `map`, threading the configuration object
that it overwrites; `position` is `this.position`.  At index 0 the divisor
`index * 8` is zero: JavaScript yields `Infinity` there, for which exact
arithmetic has no value, so nothing below relies on that quotient. -/
def trailPoint (position : VecRef K) (config : Config K) (index : Nat) :
    SpringPoint K × Config K :=
  let config := { config with target := some position }
  let config := { config with elasticity := some (1 / ((index : K) * 8)) }
  let config := { config with damping := some (8 / ((index : K) * 10 + 5)) }
  (SpringPoint.new config, config)

/-- Lines 110-115: `indices.map(index => …)`, left to right. -/
def mapTrail (position : VecRef K) : Config K → List Nat → List (SpringPoint K) × Config K
  | config, [] => ([], config)
  | config, index :: rest =>
    let r := trailPoint position config index
    let rs := mapTrail position r.2 rest
    (r.1 :: rs.1, rs.2)

/-- Line 110: `config.trailSize || 10`: an absent or zero size is replaced by 10. -/
def trailCount (config : Config K) : Nat :=
  match config.trailSize with
  | none => 10
  | some 0 => 10
  | some n => n

/-- Lines 108-116: `constructor(config)`; returns the new object and the
configuration object as the constructor leaves it. -/
def new (config : Config K) : SpringTrail K × Config K :=
  let self := SpringPoint.new config
  let r := mapTrail self.position config (range (trailCount config))
  ({ toSpringPoint := self, trail := r.1 }, r.2)

/-- Lines 118-121: `update()`. -/
def update (s : Store K) (self : SpringTrail K) : SpringTrail K :=
  let self := { self with toSpringPoint := SpringPoint.update s self.toSpringPoint }
  { self with trail := self.trail.map (fun point => SpringPoint.update s point) }

end SpringTrail

/-! ## Driving a chain over several frames -/

/-- What a caller does around one call of `update()`: `store` is the contents
of the stored objects when the call is made (any in-place assignment since the
previous call is in it), and `leadTarget` is the object assigned to the lead's
`target` field before the call, if any. -/
structure Frame (K : Type) where
  store : Store K
  leadTarget : Option (VecRef K)

namespace SpringTrail

/-- The assignment `chain.target = target`. -/
def setTarget (self : SpringTrail K) (target : VecRef K) : SpringTrail K :=
  { self with target := target }

/-- One call of `update()` per frame, in order. -/
def run (self : SpringTrail K) : List (Frame K) → SpringTrail K
  | [] => self
  | frame :: frames =>
    match frame.leadTarget with
    | none => run (update frame.store self) frames
    | some target => run (update frame.store (setTarget self target)) frames

end SpringTrail

/-! ## `class Physics` and `class Engine` -/

/-- Lines 133-135: `Physics.update(objects)`: every object is updated. -/
def Physics.update (s : Store K) (objects : List (SpringTrail K)) : List (SpringTrail K) :=
  objects.map (fun object => SpringTrail.update s object)

/-! ## The script: global state, the motion field and the frame loop -/

/-- The state of `Math.random`: the draws it will return and how many were taken. -/
structure Rng (K : Type) where
  draws : Nat → K
  pos : Nat

/-- One call of `Math.random()`. -/
def Rng.next (r : Rng K) : K × Rng K :=
  (r.draws r.pos, { r with pos := r.pos + 1 })

/-- Line 207: `random = (min = 0, max = 1) => Math.random() * (max - min) + min`. -/
def random (r : Rng K) (min max : Option K) : K × Rng K :=
  let d := r.next
  (d.1 * (max.getD 1 - min.getD 0) + min.getD 0, d.2)

/-- The global variables of the script (lines 184-219).  `targets` holds the
identities of the target objects, `store` their current contents, `objects`
is `engine.objects`. -/
structure World (K : Type) where
  io : Io K
  objects : List (SpringTrail K)
  origin : Vector K
  targetsSize : Nat
  targets : List Nat
  time : Nat
  store : Store K
  rng : Rng K

/-- Line 204: the argument of the outer `.add`,
`origin.add(io.mouse.subtract(origin).scale(0.5))`, reading the globals
`origin` and `io.mouse`. -/
def polarShift (w : World K) : Vector K :=
  w.origin.add ((w.io.mouse.subtract w.origin).scale (some 0.5))

/-- Lines 198-205: `polar = (rad, time) => …`. -/
def polar (m : Math K) (w : World K) (rad time : K) : Vector K :=
  let rad := rad + m.sin (time / 100)
  let x := 16 * m.sin rad ^ 3
  let y := 13 * m.cos rad - 5 * m.cos (2 * rad) - 2 * m.cos (3 * rad) - m.cos (4 * rad)
  let scale := (m.sin (time / 10) + 3) * 4
  (Vector.new (some (x * scale)) (some (-y * scale))).add (polarShift w)

/-- Line 243: `[targets[rnd1], targets[rnd2]] = [targets[rnd2], targets[rnd1]]`.
An index outside the array would store `undefined` in it, which a list of
object identities cannot hold: that case is reported as `none`. -/
def swapTargets (targets : List Nat) (rnd1 rnd2 : Int) : Option (List Nat) :=
  if 0 ≤ rnd1 ∧ 0 ≤ rnd2 then
    match targets[rnd2.toNat]?, targets[rnd1.toNat]? with
    | some b, some a => some ((targets.set rnd1.toNat b).set rnd2.toNat a)
    | _, _ => none
  else none

/-- Lines 234-244: the body of the loop of `updateTargets` at index `i`.
`targets[i]` being `undefined` makes the assignment throw: `none`. -/
def updateTarget [FloorRing K] (m : Math K) (w : World K) (i : Nat) : Option (World K) :=
  let u := random w.rng none none
  let lerp := (i : K) / ((w.targetsSize : K) - 1) * m.PI * 2 + u.1 / 10
  let result := polar m w lerp (w.time : K)
  match w.targets[i]? with
  | none => none
  | some id =>
    let w := { w with rng := u.2, store := w.store.assign id result }
    let c := random w.rng none none
    if c.1 < 0.004 then
      let r1 := random c.2 (some 0) (some (w.targets.length : K))
      let rnd1 := Int.floor r1.1
      let r2 := random r1.2 (some 0) (some (w.targets.length : K))
      let rnd2 := Int.floor r2.1
      match swapTargets w.targets rnd1 rnd2 with
      | none => none
      | some targets => some { w with rng := r2.2, targets := targets }
    else some { w with rng := c.2 }

/-- Line 233: `for (let i = …; i < targetsSize; i++)` with `count` iterations left. -/
def updateTargetsFrom [FloorRing K] (m : Math K) : Nat → Nat → World K → Option (World K)
  | 0, _, w => some w
  | count + 1, i, w =>
    match updateTarget m w i with
    | none => none
    | some w => updateTargetsFrom m count (i + 1) w

/-- Lines 232-246: `updateTargets()`. -/
def updateTargets [FloorRing K] (m : Math K) (w : World K) : Option (World K) :=
  updateTargetsFrom m w.targetsSize 0 w

/-- Lines 220-229: one frame of `animate` (clearing and drawing the canvas
do not touch the state). -/
def animate [FloorRing K] (m : Math K) (w : World K) : Option (World K) :=
  let w := { w with time := w.time + 1 }
  let w := { w with objects := Physics.update w.store w.objects }
  updateTargets m w

/-! ## A run of `updateTargets` in which no swap fires -/

/-- The value that iteration `j` of `updateTargets`, started in `w0`, assigns
to `targets[j]` when every earlier iteration took exactly two draws. -/
def targetValue (m : Math K) (w0 : World K) (j : Nat) : Vector K :=
  polar m w0
    ((j : K) / ((w0.targetsSize : K) - 1) * m.PI * 2 + w0.rng.draws (w0.rng.pos + 2 * j) / 10)
    (w0.time : K)

/-- The state on entering iteration `i` of `updateTargets`, started in `w0`,
when no swap has fired: only the store and the position in the stream of
draws have changed, and the first `i` target objects hold their new values. -/
structure EnteringIteration (m : Math K) (w0 w : World K) (i : Nat) : Prop where
  io_eq : w.io = w0.io
  objects_eq : w.objects = w0.objects
  origin_eq : w.origin = w0.origin
  targetsSize_eq : w.targetsSize = w0.targetsSize
  targets_eq : w.targets = w0.targets
  time_eq : w.time = w0.time
  draws_eq : w.rng.draws = w0.rng.draws
  pos_eq : w.rng.pos = w0.rng.pos + 2 * i
  assigned : ∀ (j id : Nat), j < i → w0.targets[j]? = some id → w.store id = targetValue m w0 j
  others : ∀ id : Nat, id ∉ w0.targets → w.store id = w0.store id

/-! ## Parts of the source expressions that the properties name -/

/-- Line 202: the right-hand side of `let scale = (Math.sin(time / 10) + 3) * 4`. -/
def polarScale (m : Math K) (time : K) : K :=
  (m.sin (time / 10) + 3) * 4

/-- Line 234: the angle of target `i` among `targetsSize` targets with jitter
draw `u`, `i / (targetsSize - 1) * Math.PI * 2 + u / 10`. -/
def lerp (m : Math K) (targetsSize i : Nat) (u : K) : K :=
  (i : K) / ((targetsSize : K) - 1) * m.PI * 2 + u / 10

/-! ## The motion field as the specification words it -/

/-- The specified motion field (section 4.4): with `a = angle + sin(time/100)`,
`x = 16 sin(a)^3`, `y = 13 cos(a) - 5 cos(2a) - 2 cos(3a) - cos(4a)` and
`s = (sin(time/10) + 3) * 4`, the point `(x s, -y s)` translated by
`origin + (pointer - origin) * 0.5`. -/
def curve (m : Math K) (angle time : K) (pointer origin : Vector K) : Vector K :=
  let a := angle + m.sin (time / 100)
  let x := 16 * m.sin a ^ 3
  let y := 13 * m.cos a - 5 * m.cos (2 * a) - 2 * m.cos (3 * a) - m.cos (4 * a)
  let s := (m.sin (time / 10) + 3) * 4
  { x := x * s + (origin.x + (pointer.x - origin.x) * 0.5)
    y := -y * s + (origin.y + (pointer.y - origin.y) * 0.5) }

/-! ## Concrete data used to evaluate the definitions -/

/-- The globals right after start-up on a canvas of 800 by 600, before any
`mousemove` event: `io = new IO()`, `origin = (400, 300)`. -/
def idleWorld : World ℚ :=
  { io := Io.new, objects := [], origin := ⟨400, 300⟩, targetsSize := 0, targets := [],
    time := 0, store := fun _ => ⟨0, 0⟩, rng := { draws := fun _ => 0, pos := 0 } }


/-- A store in which every object holds `(3,4)`. -/
def restStore : Store ℚ := fun _ => ⟨3, 4⟩

/-- A stand-in for the `Math` object over `ℚ`, only used to evaluate the
definitions at a concrete input. -/
def coarseMath : Math ℚ :=
  { sin := fun _ => 0, cos := fun _ => 1, sqrt := fun a => a, PI := 22 / 7 }

/-- Two target objects, 0 and 1, on a canvas of 800 by 600; every draw of
`Math.random()` is `1/2`. -/
def pairWorld : World ℚ :=
  { io := Io.new, objects := [], origin := ⟨400, 300⟩, targetsSize := 2, targets := [0, 1],
    time := 1, store := fun _ => ⟨0, 0⟩, rng := { draws := fun _ => 1 / 2, pos := 0 } }

/-- The configuration of line 215, `{ target, size: 1.3, trailSize, color:
"rgba(230, 10, 40, 0.8)" }`, with the stored object 0 as target. -/
def heartConfig (trailSize : Nat) : Config ℚ :=
  { target := some (.obj 0), elasticity := none, color := some "rgba(230, 10, 40, 0.8)",
    size := some 1.3, damping := none, trailSize := some trailSize }

/-! ## Basic facts about the embedding -/

section Basic

@[simp]
theorem Vector.new_x (x y : K) : (Vector.new (some x) (some y)).x = x := rfl

@[simp]
theorem Vector.new_y (x y : K) : (Vector.new (some x) (some y)).y = y := rfl

@[simp]
theorem Vector.new_none_x : (Vector.new none none : Vector K).x = 0 := rfl

@[simp]
theorem Vector.new_none_y : (Vector.new none none : Vector K).y = 0 := rfl

@[simp]
theorem Vector.add_x (a b : Vector K) : (a.add b).x = a.x + b.x := rfl

@[simp]
theorem Vector.add_y (a b : Vector K) : (a.add b).y = a.y + b.y := rfl

@[simp]
theorem Vector.subtract_x (a b : Vector K) : (a.subtract b).x = a.x - b.x := rfl

@[simp]
theorem Vector.subtract_y (a b : Vector K) : (a.subtract b).y = a.y - b.y := rfl

@[simp]
theorem Vector.scale_x (a : Vector K) (c : K) : (a.scale (some c)).x = a.x * c := rfl

@[simp]
theorem Vector.scale_y (a : Vector K) (c : K) : (a.scale (some c)).y = a.y * c := rfl

@[simp]
theorem Store.read_obj (s : Store K) (id : Nat) : s.read (.obj id) = s id := rfl

@[simp]
theorem Store.read_fresh (s : Store K) (v : Vector K) : s.read (.fresh v) = v := rfl

/-- The position after `update()`, read in the same store. -/
theorem SpringPoint.read_update_position (s : Store K) (p : SpringPoint K) :
    s.read (SpringPoint.update s p).position = (s.read p.position).add (s.read p.velocity) :=
  rfl

/-- The velocity after `update()`: the force is computed from the new position. -/
theorem SpringPoint.read_update_velocity (s : Store K) (p : SpringPoint K) :
    s.read (SpringPoint.update s p).velocity =
      (s.read p.velocity).add
        ((((s.read p.target).subtract ((s.read p.position).add (s.read p.velocity))).scale
          (some p.elasticity)).subtract ((s.read p.velocity).scale (some p.damping))) :=
  rfl

@[simp]
theorem SpringPoint.update_target (s : Store K) (p : SpringPoint K) :
    (SpringPoint.update s p).target = p.target := rfl

@[simp]
theorem SpringPoint.update_elasticity (s : Store K) (p : SpringPoint K) :
    (SpringPoint.update s p).elasticity = p.elasticity := rfl

@[simp]
theorem SpringPoint.update_damping (s : Store K) (p : SpringPoint K) :
    (SpringPoint.update s p).damping = p.damping := rfl

@[simp]
theorem SpringPoint.update_color (s : Store K) (p : SpringPoint K) :
    (SpringPoint.update s p).color = p.color := rfl

@[simp]
theorem SpringPoint.update_size (s : Store K) (p : SpringPoint K) :
    (SpringPoint.update s p).size = p.size := rfl

/-- The callback result does not depend on what earlier calls wrote into the
configuration object. -/
theorem SpringTrail.trailPoint_trailPoint (position : VecRef K) (config : Config K)
    (j i : Nat) :
    SpringTrail.trailPoint position (SpringTrail.trailPoint position config j).2 i =
      SpringTrail.trailPoint position config i := rfl

/-- The trail is the image of the index list under the callback. -/
theorem SpringTrail.mapTrail_fst (position : VecRef K) (config : Config K) (l : List Nat) :
    (SpringTrail.mapTrail position config l).1 =
      l.map (fun index => (SpringTrail.trailPoint position config index).1) := by
  induction l generalizing config with
  | nil => rfl
  | cons j rest ih =>
    simp only [SpringTrail.mapTrail, List.map_cons, ih]
    congr 1

/-- The trail built by the constructor. -/
theorem SpringTrail.new_trail (config : Config K) :
    (SpringTrail.new config).1.trail =
      (List.range (SpringTrail.trailCount config)).map
        (fun index => (SpringTrail.trailPoint (SpringPoint.new config).position config index).1) := by
  simp only [SpringTrail.new, range, SpringTrail.mapTrail_fst]

/-- The lead built by the constructor. -/
theorem SpringTrail.new_toSpringPoint (config : Config K) :
    (SpringTrail.new config).1.toSpringPoint = SpringPoint.new config := rfl

theorem SpringTrail.update_toSpringPoint (s : Store K) (c : SpringTrail K) :
    (SpringTrail.update s c).toSpringPoint = SpringPoint.update s c.toSpringPoint := rfl

theorem SpringTrail.update_trail (s : Store K) (c : SpringTrail K) :
    (SpringTrail.update s c).trail = c.trail.map (SpringPoint.update s) := rfl

/-- A quantity that `update()` leaves alone is the same along the trail after
any number of frames. -/
theorem SpringTrail.run_trail_map {α : Type} (f : SpringPoint K → α)
    (hf : ∀ (s : Store K) (p : SpringPoint K), f (SpringPoint.update s p) = f p)
    (c : SpringTrail K) (frames : List (Frame K)) :
    (SpringTrail.run c frames).trail.map f = c.trail.map f := by
  induction frames generalizing c with
  | nil => rfl
  | cons frame frames ih =>
    have hstep : ∀ d : SpringTrail K,
        (SpringTrail.update frame.store d).trail.map f = d.trail.map f := by
      intro d
      rw [SpringTrail.update_trail, List.map_map]
      exact List.map_congr_left (fun p _ => hf frame.store p)
    unfold SpringTrail.run
    cases frame.leadTarget with
    | none => exact (ih _).trans (hstep c)
    | some target => exact (ih _).trans (hstep (SpringTrail.setTarget c target))

/-- The value assigned in iteration `j` is the motion field at the angle of line 234. -/
theorem targetValue_eq_polar_lerp (m : Math K) (w0 : World K) (j : Nat) :
    targetValue m w0 j =
      polar m w0 (lerp m w0.targetsSize j (w0.rng.draws (w0.rng.pos + 2 * j))) (w0.time : K) :=
  rfl

/-- The motion field reads only `io` and `origin` from the globals. -/
theorem polar_congr (m : Math K) (w w0 : World K) (hio : w.io = w0.io)
    (horigin : w.origin = w0.origin) (rad time : K) :
    polar m w rad time = polar m w0 rad time := by
  simp only [polar, polarShift, hio, horigin]

/-- One iteration of `updateTargets` in which the swap test fails. -/
theorem updateTarget_of_not_swap [FloorRing K] (m : Math K) (w : World K) (i id : Nat)
    (hid : w.targets[i]? = some id) (hno : ¬ w.rng.draws (w.rng.pos + 1) < 0.004) :
    updateTarget m w i = some
      { w with
        rng := { draws := w.rng.draws, pos := w.rng.pos + 2 }
        store := w.store.assign id
          (polar m w
            ((i : K) / ((w.targetsSize : K) - 1) * m.PI * 2 + w.rng.draws w.rng.pos / 10)
            (w.time : K)) } := by
  have hc : ¬ w.rng.draws (w.rng.pos + 1) * (1 - 0) + 0 < 0.004 := by
    simpa using hno
  simp only [updateTarget, hid, random, Rng.next, Option.getD_none, if_neg hc]
  simp

/-- The loop of `updateTargets` runs to its end when no swap fires. -/
theorem updateTargetsFrom_of_not_swap [FloorRing K] (m : Math K) (w0 : World K)
    (hlen : w0.targets.length = w0.targetsSize) (hnodup : w0.targets.Nodup)
    (hno : ∀ i : Nat, i < w0.targetsSize →
      ¬ w0.rng.draws (w0.rng.pos + 2 * i + 1) < 0.004)
    (count : Nat) : ∀ (i : Nat) (w : World K), i + count = w0.targetsSize →
      EnteringIteration m w0 w i →
      ∃ w1 : World K, updateTargetsFrom m count i w = some w1 ∧
        EnteringIteration m w0 w1 (i + count) := by
  induction count with
  | zero =>
    intro i w _ hinv
    exact ⟨w, rfl, hinv⟩
  | succ count ih =>
    intro i w hsum hinv
    have hi : i < w0.targets.length := by omega
    have hid : w.targets[i]? = some w0.targets[i] := by
      rw [hinv.targets_eq, List.getElem?_eq_getElem hi]
    have hswap : ¬ w.rng.draws (w.rng.pos + 1) < 0.004 := by
      rw [hinv.draws_eq, hinv.pos_eq]
      exact hno i (by omega)
    have hstep := updateTarget_of_not_swap m w i w0.targets[i] hid hswap
    have hnext := ih (i + 1)
      { w with
        rng := { draws := w.rng.draws, pos := w.rng.pos + 2 }
        store := w.store.assign w0.targets[i]
          (polar m w
            ((i : K) / ((w.targetsSize : K) - 1) * m.PI * 2 + w.rng.draws w.rng.pos / 10)
            (w.time : K)) }
      (by omega)
      { io_eq := hinv.io_eq
        objects_eq := hinv.objects_eq
        origin_eq := hinv.origin_eq
        targetsSize_eq := hinv.targetsSize_eq
        targets_eq := hinv.targets_eq
        time_eq := hinv.time_eq
        draws_eq := hinv.draws_eq
        pos_eq := by
          show w.rng.pos + 2 = w0.rng.pos + 2 * (i + 1)
          rw [hinv.pos_eq]
          ring
        assigned := by
          intro j id hj hjid
          show (if id = w0.targets[i] then _ else w.store id) = _
          have hjlen : j < w0.targets.length := by omega
          have hidj : id = w0.targets[j] := by
            rw [List.getElem?_eq_getElem hjlen] at hjid
            exact (Option.some.inj hjid).symm
          by_cases hji : j = i
          · subst hji
            rw [if_pos hidj]
            unfold targetValue
            rw [polar_congr m w w0 hinv.io_eq hinv.origin_eq, hinv.targetsSize_eq,
              hinv.draws_eq, hinv.pos_eq, hinv.time_eq]
          · have hne : id ≠ w0.targets[i] := by
              rw [hidj]
              intro h
              exact hji ((hnodup.getElem_inj_iff).mp h)
            rw [if_neg hne]
            exact hinv.assigned j id (by omega) hjid
        others := by
          intro id hid
          show (if id = w0.targets[i] then _ else w.store id) = _
          have hne : id ≠ w0.targets[i] := by
            intro h
            exact hid (h ▸ List.getElem_mem _)
          rw [if_neg hne]
          exact hinv.others id hid }
    obtain ⟨w1, hw1, hinv1⟩ := hnext
    refine ⟨w1, ?_, ?_⟩
    · show (match updateTarget m w i with
        | none => none
        | some w => updateTargetsFrom m count (i + 1) w) = some w1
      rw [hstep]
      exact hw1
    · have h : i + (count + 1) = i + 1 + count := by omega
      rw [h]
      exact hinv1

/-- Repeated `update()` changes neither target nor coefficients. -/
theorem SpringPoint.iterate_update_frame (s : Store K) (p : SpringPoint K) (n : Nat) :
    ((SpringPoint.update s)^[n] p).target = p.target ∧
    ((SpringPoint.update s)^[n] p).elasticity = p.elasticity ∧
    ((SpringPoint.update s)^[n] p).damping = p.damping := by
  induction n with
  | zero => exact ⟨rfl, rfl, rfl⟩
  | succ n ih =>
    rw [Function.iterate_succ_apply']
    exact ih

/-- A real sequence whose squares tend to 0 tends to 0. -/
theorem tendsto_zero_of_sq_tendsto_zero (x : ℕ → ℝ)
    (h : Filter.Tendsto (fun n => x n ^ 2) Filter.atTop (nhds 0)) :
    Filter.Tendsto x Filter.atTop (nhds 0) := by
  rw [tendsto_zero_iff_abs_tendsto_zero]
  have hsqrt := (Real.continuous_sqrt.tendsto 0).comp h
  rw [Real.sqrt_zero] at hsqrt
  refine hsqrt.congr (fun n => ?_)
  exact Real.sqrt_sq_eq_abs (x n)

/-- The displacement `x` and velocity `v` of one coordinate under the step with
elasticity and damping `0.1`: the quadratic form `x²/10 + x v/5 + v²` shrinks
by the factor `9/10` at each step, so both tend to 0. -/
theorem spring_recurrence_tendsto (x v : ℕ → ℝ)
    (hx : ∀ n, x (n + 1) = x n + v n)
    (hv : ∀ n, v (n + 1) = v n + ((0 - x (n + 1)) * 0.1 - v n * 0.1)) :
    Filter.Tendsto x Filter.atTop (nhds 0) ∧ Filter.Tendsto v Filter.atTop (nhds 0) := by
  have hstep : ∀ n, 0.1 * x (n + 1) ^ 2 + 0.2 * x (n + 1) * v (n + 1) + v (n + 1) ^ 2
      = 0.9 * (0.1 * x n ^ 2 + 0.2 * x n * v n + v n ^ 2) := by
    intro n
    rw [hv n, hx n]
    ring
  have hpow : ∀ n, 0.1 * x n ^ 2 + 0.2 * x n * v n + v n ^ 2
      = 0.9 ^ n * (0.1 * x 0 ^ 2 + 0.2 * x 0 * v 0 + v 0 ^ 2) := by
    intro n
    induction n with
    | zero => simp
    | succ n ih =>
      rw [hstep n, ih]
      ring
  have hlim : Filter.Tendsto (fun n => 0.1 * x n ^ 2 + 0.2 * x n * v n + v n ^ 2)
      Filter.atTop (nhds 0) := by
    have h := (tendsto_pow_atTop_nhds_zero_of_lt_one (by norm_num : (0 : ℝ) ≤ 0.9)
      (by norm_num : (0.9 : ℝ) < 1)).mul_const (0.1 * x 0 ^ 2 + 0.2 * x 0 * v 0 + v 0 ^ 2)
    rw [zero_mul] at h
    exact h.congr (fun n => (hpow n).symm)
  have hlim9 : Filter.Tendsto
      (fun n => (0.1 * x n ^ 2 + 0.2 * x n * v n + v n ^ 2) / 0.09) Filter.atTop (nhds 0) := by
    have h := hlim.div_const 0.09
    rwa [zero_div] at h
  constructor
  · apply tendsto_zero_of_sq_tendsto_zero
    refine squeeze_zero (fun n => sq_nonneg (x n)) (fun n => ?_) hlim9
    rw [le_div_iff₀ (by norm_num : (0 : ℝ) < 0.09)]
    nlinarith [sq_nonneg (v n + 0.1 * x n)]
  · apply tendsto_zero_of_sq_tendsto_zero
    refine squeeze_zero (fun n => sq_nonneg (v n)) (fun n => ?_) hlim9
    rw [le_div_iff₀ (by norm_num : (0 : ℝ) < 0.09)]
    nlinarith [sq_nonneg (x n + v n)]

/-- A scale factor built from a sine between -1 and 1 lies between 8 and 16. -/
theorem polarScale_mem (m : Math K) (time : K) (hlo : -1 ≤ m.sin (time / 10))
    (hhi : m.sin (time / 10) ≤ 1) :
    8 ≤ polarScale m time ∧ polarScale m time ≤ 16 := by
  unfold polarScale
  constructor <;> linarith

/-- Exchanging two entries of a list permutes it. -/
theorem swap_entries_perm (l : List Nat) (a b : Nat) (ha : a < l.length) (hb : b < l.length) :
    ((l.set a l[b]).set b l[a]).Perm l := by
  rw [List.perm_iff_count]
  intro x
  have hb2 : b < (l.set a l[b]).length := by rw [List.length_set]; exact hb
  rw [List.count_set _ _ _ _ hb2, List.count_set _ _ _ _ ha]
  have hget : (l.set a l[b])[b] = l[b] := by
    rw [List.getElem_set]
    split <;> rfl
  rw [hget]
  have hA : (if (l[a] == x) = true then 1 else 0) ≤ List.count x l := by
    split
    · rename_i h
      have hx : l[a] = x := by simpa using h
      rw [← hx]
      exact List.one_le_count_iff.mpr (List.getElem_mem _)
    · exact Nat.zero_le _
  omega

/-- Exchanging an entry with itself changes nothing. -/
theorem swap_entries_same (l : List Nat) (a b : Nat) (ha : a < l.length) (hb : b < l.length)
    (hab : a = b) : (l.set a l[b]).set b l[a] = l := by
  subst hab
  apply List.ext_getElem
  · simp
  · intro i h1 h2
    simp only [List.getElem_set]
    split
    · rename_i h
      subst h
      rfl
    · rfl

/-- The swap of line 243 at two indices inside the array. -/
theorem swapTargets_of_lt (targets : List Nat) (rnd1 rnd2 : Int) (h1 : 0 ≤ rnd1)
    (h2 : 0 ≤ rnd2) (hlt1 : rnd1.toNat < targets.length) (hlt2 : rnd2.toNat < targets.length) :
    swapTargets targets rnd1 rnd2 =
      some ((targets.set rnd1.toNat targets[rnd2.toNat]).set rnd2.toNat targets[rnd1.toNat]) := by
  unfold swapTargets
  rw [if_pos ⟨h1, h2⟩, List.getElem?_eq_getElem hlt1, List.getElem?_eq_getElem hlt2]

/-- The index `Math.floor(random(0, n))` of a draw in `[0,1)` lies in `[0, n-1]`. -/
theorem floor_random_mem [FloorRing K] (r : Rng K) (n : Nat) (hn : 1 ≤ n)
    (h0 : 0 ≤ r.draws r.pos) (h1 : r.draws r.pos < 1) :
    (random r (some 0) (some (n : K))).1 = r.draws r.pos * (n : K) ∧
    0 ≤ Int.floor (random r (some 0) (some (n : K))).1 ∧
    Int.floor (random r (some 0) (some (n : K))).1 ≤ (n : Int) - 1 ∧
    (Int.floor (random r (some 0) (some (n : K))).1).toNat < n := by
  have hval : (random r (some 0) (some (n : K))).1 = r.draws r.pos * (n : K) := by
    simp [random, Rng.next]
  have hnpos : (0 : K) < (n : K) := by exact_mod_cast hn
  have hlo : 0 ≤ Int.floor (r.draws r.pos * (n : K)) :=
    Int.floor_nonneg.mpr (mul_nonneg h0 (le_of_lt hnpos))
  have hhi : Int.floor (r.draws r.pos * (n : K)) < (n : Int) := by
    rw [Int.floor_lt]
    have : r.draws r.pos * (n : K) < 1 * (n : K) := mul_lt_mul_of_pos_right h1 hnpos
    simpa using this
  rw [hval]
  refine ⟨rfl, hlo, by omega, by omega⟩

/-- The characteristic equation of the step has a real root of absolute value
at least 1 when the damping is at least 2 or `elasticity + 2 damping ≥ 4`. -/
theorem spring_root (e d : ℝ) (h : 2 ≤ d ∨ 4 ≤ e + 2 * d) :
    ∃ q : ℝ, q * q = (2 - e - d) * q - (1 - d) ∧ 1 ≤ |q| := by
  have hD : 0 ≤ (2 - e - d) ^ 2 - 4 * (1 - d) := by
    rcases h with h | h
    · nlinarith [sq_nonneg (2 - e - d)]
    · nlinarith [sq_nonneg (2 - e - d + 2)]
  have hsq := Real.mul_self_sqrt hD
  have hnn := Real.sqrt_nonneg ((2 - e - d) ^ 2 - 4 * (1 - d))
  rcases h with h | h
  · have h2 : 2 ≤ Real.sqrt ((2 - e - d) ^ 2 - 4 * (1 - d)) := by
      apply Real.le_sqrt_of_sq_le
      nlinarith [sq_nonneg (2 - e - d)]
    by_cases ht : 0 ≤ 2 - e - d
    · refine ⟨((2 - e - d) + Real.sqrt ((2 - e - d) ^ 2 - 4 * (1 - d))) / 2, ?_, ?_⟩
      · nlinarith
      · rw [le_abs]
        left
        linarith
    · refine ⟨((2 - e - d) - Real.sqrt ((2 - e - d) ^ 2 - 4 * (1 - d))) / 2, ?_, ?_⟩
      · nlinarith
      · rw [le_abs]
        right
        linarith
  · have h2 : 2 - e - d + 2 ≤ Real.sqrt ((2 - e - d) ^ 2 - 4 * (1 - d)) := by
      apply Real.le_sqrt_of_sq_le
      nlinarith
    refine ⟨((2 - e - d) - Real.sqrt ((2 - e - d) ^ 2 - 4 * (1 - d))) / 2, ?_, ?_⟩
    · nlinarith
    · rw [le_abs]
      right
      linarith

/-- The displacement `x` and velocity `v` of one coordinate under the step
with elasticity `e` and damping `d`: when `0 < d < 2` and `(e + d)² < 4 e` the
quadratic form `e x² + (e + d) x v + v²` shrinks by the factor `1 - d` at each
step, so both tend to 0. -/
theorem spring_recurrence_tendsto_of_underdamped (e d : ℝ) (hd0 : 0 < d) (hd2 : d < 2)
    (hdisc : (e + d) ^ 2 < 4 * e) (x v : ℕ → ℝ)
    (hx : ∀ n, x (n + 1) = x n + v n)
    (hv : ∀ n, v (n + 1) = v n + ((0 - x (n + 1)) * e - v n * d)) :
    Filter.Tendsto x Filter.atTop (nhds 0) ∧ Filter.Tendsto v Filter.atTop (nhds 0) := by
  have hstep : ∀ n, e * x (n + 1) ^ 2 + (e + d) * x (n + 1) * v (n + 1) + v (n + 1) ^ 2
      = (1 - d) * (e * x n ^ 2 + (e + d) * x n * v n + v n ^ 2) := by
    intro n
    rw [hv n, hx n]
    ring
  have hpow : ∀ n, e * x n ^ 2 + (e + d) * x n * v n + v n ^ 2
      = (1 - d) ^ n * (e * x 0 ^ 2 + (e + d) * x 0 * v 0 + v 0 ^ 2) := by
    intro n
    induction n with
    | zero => simp
    | succ n ih =>
      rw [hstep n, ih]
      ring
  have habs : |1 - d| < 1 := by
    rw [abs_lt]
    constructor <;> linarith
  have hlim : Filter.Tendsto (fun n => e * x n ^ 2 + (e + d) * x n * v n + v n ^ 2)
      Filter.atTop (nhds 0) := by
    have h := (tendsto_pow_atTop_nhds_zero_of_abs_lt_one habs).mul_const
      (e * x 0 ^ 2 + (e + d) * x 0 * v 0 + v 0 ^ 2)
    rw [zero_mul] at h
    exact h.congr (fun n => (hpow n).symm)
  have hc : 0 < 4 * e - (e + d) ^ 2 := by linarith
  have he : 0 < e := by nlinarith [sq_nonneg (e + d)]
  constructor
  · apply tendsto_zero_of_sq_tendsto_zero
    have hl := (hlim.const_mul 4).div_const (4 * e - (e + d) ^ 2)
    rw [mul_zero, zero_div] at hl
    refine squeeze_zero (fun n => sq_nonneg (x n)) (fun n => ?_) hl
    rw [le_div_iff₀ hc]
    nlinarith [sq_nonneg (2 * v n + (e + d) * x n)]
  · apply tendsto_zero_of_sq_tendsto_zero
    have hl := (hlim.const_mul (4 * e)).div_const (4 * e - (e + d) ^ 2)
    rw [mul_zero, zero_div] at hl
    refine squeeze_zero (fun n => sq_nonneg (v n)) (fun n => ?_) hl
    rw [le_div_iff₀ hc]
    nlinarith [sq_nonneg (2 * e * x n + (e + d) * v n)]

/-- With `0 < damping < 2` and `(elasticity + damping)² < 4 elasticity` the
position tends to the fixed target from every initial state. -/
theorem SpringPoint.tendsto_of_underdamped (s : Store ℝ) (p : SpringPoint ℝ)
    (hd0 : 0 < p.damping) (hd2 : p.damping < 2)
    (hdisc : (p.elasticity + p.damping) ^ 2 < 4 * p.elasticity) :
    Filter.Tendsto
      (fun n : ℕ => Vector.distance
        { sin := Real.sin, cos := Real.cos, sqrt := Real.sqrt, PI := Real.pi }
        (s.read ((SpringPoint.update s)^[n] p).position) (s.read p.target))
      Filter.atTop (nhds 0) := by
  have hframe := SpringPoint.iterate_update_frame s p
  have hX := spring_recurrence_tendsto_of_underdamped p.elasticity p.damping hd0 hd2 hdisc
    (fun n => (s.read ((SpringPoint.update s)^[n] p).position).x - (s.read p.target).x)
    (fun n => (s.read ((SpringPoint.update s)^[n] p).velocity).x)
    (by
      intro n
      simp only [Function.iterate_succ_apply', SpringPoint.read_update_position, Vector.add_x]
      ring)
    (by
      intro n
      simp only [Function.iterate_succ_apply', SpringPoint.read_update_position,
        SpringPoint.read_update_velocity, Vector.add_x, Vector.subtract_x, Vector.scale_x,
        (hframe n).1, (hframe n).2.1, (hframe n).2.2]
      ring)
  have hY := spring_recurrence_tendsto_of_underdamped p.elasticity p.damping hd0 hd2 hdisc
    (fun n => (s.read ((SpringPoint.update s)^[n] p).position).y - (s.read p.target).y)
    (fun n => (s.read ((SpringPoint.update s)^[n] p).velocity).y)
    (by
      intro n
      simp only [Function.iterate_succ_apply', SpringPoint.read_update_position, Vector.add_y]
      ring)
    (by
      intro n
      simp only [Function.iterate_succ_apply', SpringPoint.read_update_position,
        SpringPoint.read_update_velocity, Vector.add_y, Vector.subtract_y, Vector.scale_y,
        (hframe n).1, (hframe n).2.1, (hframe n).2.2]
      ring)
  have hsum := (hX.1.mul hX.1).add (hY.1.mul hY.1)
  have hsqrt := (Real.continuous_sqrt.tendsto _).comp hsum
  simp only [mul_zero, add_zero, Real.sqrt_zero] at hsqrt
  exact hsqrt

/-- Started at `(1,0)` with velocity `(q - 1, 0)` and target `(0,0)`, where `q`
is a root of the characteristic equation, the point is at `(q^n, 0)` after
`n` steps. -/
theorem SpringPoint.iterate_on_root (s : Store ℝ) (e d q : ℝ)
    (hq : q * q = (2 - e - d) * q - (1 - d)) (n : Nat) :
    s.read ((SpringPoint.update s)^[n]
      { position := .fresh ⟨1, 0⟩, color := "#f00", size := 3, velocity := .fresh ⟨q - 1, 0⟩,
        target := .fresh ⟨0, 0⟩, elasticity := e, damping := d }).position = ⟨q ^ n, 0⟩ ∧
    s.read ((SpringPoint.update s)^[n]
      { position := .fresh ⟨1, 0⟩, color := "#f00", size := 3, velocity := .fresh ⟨q - 1, 0⟩,
        target := .fresh ⟨0, 0⟩, elasticity := e, damping := d }).velocity
      = ⟨(q - 1) * q ^ n, 0⟩ := by
  induction n with
  | zero =>
    constructor
    · ext <;> simp
    · ext <;> simp
  | succ n ih =>
    have hframe := SpringPoint.iterate_update_frame s
      ({ position := .fresh ⟨1, 0⟩, color := "#f00", size := 3, velocity := .fresh ⟨q - 1, 0⟩,
         target := .fresh ⟨0, 0⟩, elasticity := e, damping := d } : SpringPoint ℝ) n
    rw [Function.iterate_succ_apply', SpringPoint.read_update_position,
      SpringPoint.read_update_velocity, ih.1, ih.2, hframe.1, hframe.2.1, hframe.2.2]
    constructor
    · ext
      · simp only [Vector.add_x]
        ring
      · simp only [Vector.add_y]
        ring
    · ext
      · simp only [Vector.add_x, Vector.subtract_x, Vector.scale_x, Store.read_fresh]
        have h : (q - 1) * q ^ (n + 1) = (q * q - q) * q ^ n := by ring
        rw [h, hq]
        ring
      · simp only [Vector.add_y, Vector.subtract_y, Vector.scale_y, Store.read_fresh]
        ring

end Basic

/-! ## The integration step of a `SpringPoint` -/

/-- C1: one `update()` moves the position by the old velocity, and adds to the
velocity the force `(target - new position) * elasticity - old velocity * damping`;
with `elasticity = damping = 0.1`, target `(10,0)`, position `(0,0)` and
velocity `(0,0)` the result is position `(0,0)` and velocity `(1,0)`. -/
theorem SpringPoint.update_step (s : Store K) (p : SpringPoint K) :
    ((s.read (SpringPoint.update s p).position).x = (s.read p.position).x + (s.read p.velocity).x ∧
     (s.read (SpringPoint.update s p).position).y = (s.read p.position).y + (s.read p.velocity).y) ∧
    ((s.read (SpringPoint.update s p).velocity).x =
        (s.read p.velocity).x
          + ((s.read p.target).x - (s.read (SpringPoint.update s p).position).x) * p.elasticity
          - (s.read p.velocity).x * p.damping ∧
     (s.read (SpringPoint.update s p).velocity).y =
        (s.read p.velocity).y
          + ((s.read p.target).y - (s.read (SpringPoint.update s p).position).y) * p.elasticity
          - (s.read p.velocity).y * p.damping) ∧
    (∀ s0 : Store ℚ,
      (s0.read (SpringPoint.update s0
          { position := .fresh ⟨0, 0⟩, color := "#f00", size := 3, velocity := .fresh ⟨0, 0⟩,
            target := .fresh ⟨10, 0⟩, elasticity := 0.1, damping := 0.1 }).position = ⟨0, 0⟩) ∧
      (s0.read (SpringPoint.update s0
          { position := .fresh ⟨0, 0⟩, color := "#f00", size := 3, velocity := .fresh ⟨0, 0⟩,
            target := .fresh ⟨10, 0⟩, elasticity := 0.1, damping := 0.1 }).velocity = ⟨1, 0⟩)) := by
  refine ⟨⟨rfl, rfl⟩, ⟨?_, ?_⟩, ?_⟩
  · rw [SpringPoint.read_update_velocity, SpringPoint.read_update_position]
    simp only [Vector.add_x, Vector.subtract_x, Vector.scale_x]
    ring
  · rw [SpringPoint.read_update_velocity, SpringPoint.read_update_position]
    simp only [Vector.add_y, Vector.subtract_y, Vector.scale_y]
    ring
  · intro s0
    constructor
    · rw [SpringPoint.read_update_position]
      ext <;> simp
    · rw [SpringPoint.read_update_velocity]
      ext <;> norm_num

/-- C3, counterexample: built with `trailSize = 0`, the chain of line 215 has
ten trail points, not none. -/
theorem SpringTrail.new_trailSize_zero :
    (SpringTrail.new (heartConfig 0)).1.trail.length = 10 ∧
    (SpringTrail.new (heartConfig 0)).1.trail ≠ [] := by
  have h : (SpringTrail.new (heartConfig 0)).1.trail.length = 10 := by
    rw [SpringTrail.new_trail, List.length_map, List.length_range]
    rfl
  refine ⟨h, fun hnil => ?_⟩
  rw [hnil] at h
  exact absurd h (by decide)

/-- C3, amended: a `trailSize` of `T ≥ 1` gives exactly `T` trail points, a
`trailSize` of 0 gives the default of 10 trail points, and the lead of every
chain is updated exactly as a bare `SpringPoint`. -/
theorem SpringTrail.new_trail_length (config : Config K) (T : Nat) (hT : 1 ≤ T)
    (hsize : config.trailSize = some T) :
    (SpringTrail.new config).1.trail.length = T ∧
    (SpringTrail.new { config with trailSize := some 0 }).1.trail.length = 10 ∧
    (∀ (s : Store K) (c : SpringTrail K),
      (SpringTrail.update s c).toSpringPoint = SpringPoint.update s c.toSpringPoint) := by
  refine ⟨?_, ?_, fun s c => rfl⟩
  · rw [SpringTrail.new_trail, List.length_map, List.length_range]
    unfold SpringTrail.trailCount
    rw [hsize]
    cases T with
    | zero => omega
    | succ n => rfl
  · rw [SpringTrail.new_trail, List.length_map, List.length_range]
    rfl

/-- C3, amended, at the configuration of line 215 with `trailSize = 3`. -/
theorem SpringTrail.new_trail_length_witness :
    (1 ≤ 3 ∧ (heartConfig 3).trailSize = some 3) ∧
    (SpringTrail.new (heartConfig 3)).1.trail.length = 3 :=
  ⟨⟨by decide, rfl⟩, (SpringTrail.new_trail_length (heartConfig 3) 3 (by decide) rfl).1⟩

/-- C4, counterexample: the chain of line 215 is built on the stored object 0,
which holds `(3,4)`; after two calls of `update()`, between which that object
(the lead's target) is assigned `(5,6)` in place as lines 236-237 do, the
target of every trail point reads `(5,6)` and no longer `(3,4)`. -/
theorem SpringTrail.trail_target_follows_assignment :
    (SpringTrail.new (heartConfig 2)).1.trail.map (fun p => Store.read restStore p.target)
      = [⟨3, 4⟩, ⟨3, 4⟩] ∧
    (SpringTrail.run (SpringTrail.new (heartConfig 2)).1
        [{ store := restStore, leadTarget := none },
         { store := restStore.assign 0 ⟨5, 6⟩, leadTarget := none }]).trail.map
        (fun p => Store.read (restStore.assign 0 ⟨5, 6⟩) p.target)
      = [⟨5, 6⟩, ⟨5, 6⟩] ∧
    ((⟨5, 6⟩ : Vector ℚ) ≠ ⟨3, 4⟩) := by
  refine ⟨?_, ?_, ?_⟩
  · rw [SpringTrail.new_trail]
    rfl
  · simp only [SpringTrail.run, SpringTrail.update_trail, SpringTrail.new_trail, List.map_map]
    rfl
  · intro h
    have hx := congrArg Vector.x h
    norm_num at hx

/-- C4, amended: after any number of calls of `update()`, whatever object is
assigned to the lead's `target` field between them and whatever the stored
objects hold, every trail point still refers to the target object it was
constructed with and keeps its elasticity and damping, so read in one and the
same store its target has the same value; one `update()` changes no target,
elasticity or damping. -/
theorem SpringTrail.run_keeps_trail_targets (c : SpringTrail K) (frames : List (Frame K)) :
    (SpringTrail.run c frames).trail.length = c.trail.length ∧
    (SpringTrail.run c frames).trail.map (fun p => p.target) = c.trail.map (fun p => p.target) ∧
    (SpringTrail.run c frames).trail.map (fun p => p.elasticity)
      = c.trail.map (fun p => p.elasticity) ∧
    (SpringTrail.run c frames).trail.map (fun p => p.damping) = c.trail.map (fun p => p.damping) ∧
    (∀ s : Store K, (SpringTrail.run c frames).trail.map (fun p => s.read p.target)
      = c.trail.map (fun p => s.read p.target)) ∧
    (∀ (s : Store K) (p : SpringPoint K),
      (SpringPoint.update s p).target = p.target ∧
      (SpringPoint.update s p).elasticity = p.elasticity ∧
      (SpringPoint.update s p).damping = p.damping) ∧
    (∀ s : Store K,
      (SpringTrail.update s c).target = c.target ∧
      (SpringTrail.update s c).elasticity = c.elasticity ∧
      (SpringTrail.update s c).damping = c.damping) := by
  refine ⟨?_, ?_, ?_, ?_, ?_, fun s p => ⟨rfl, rfl, rfl⟩, fun s => ⟨rfl, rfl, rfl⟩⟩
  · have h := SpringTrail.run_trail_map (fun _ => ()) (fun _ _ => rfl) c frames
    simpa using congrArg List.length h
  · exact SpringTrail.run_trail_map (fun p => p.target) (fun _ _ => rfl) c frames
  · exact SpringTrail.run_trail_map (fun p => p.elasticity) (fun _ _ => rfl) c frames
  · exact SpringTrail.run_trail_map (fun p => p.damping) (fun _ _ => rfl) c frames
  · intro s
    exact SpringTrail.run_trail_map (fun p => s.read p.target) (fun _ _ => rfl) c frames

/-- C5: in a chain built with trail length `T ≥ 1`, trail point `i < T` has as
target the lead's position at construction, damping `8/(10 i + 5)`, for
`i ≥ 1` elasticity `1/(8 i)`, and the color and size of the chain. -/
theorem SpringTrail.new_trail_point (config : Config K) (T i : Nat) (hT : 1 ≤ T)
    (hsize : config.trailSize = some T) (hi : i < T) :
    ∃ p : SpringPoint K, (SpringTrail.new config).1.trail[i]? = some p ∧
      p.target = (SpringTrail.new config).1.position ∧
      (∀ s : Store K, s.read p.target = s.read (SpringTrail.new config).1.position) ∧
      p.damping = 8 / (10 * (i : K) + 5) ∧
      (1 ≤ i → p.elasticity = 1 / (8 * (i : K))) ∧
      p.color = (SpringTrail.new config).1.color ∧
      p.size = (SpringTrail.new config).1.size ∧
      (∀ color : String, config.color = some color → p.color = color) ∧
      (∀ size : K, config.size = some size → p.size = size) := by
  have hcount : SpringTrail.trailCount config = T := by
    unfold SpringTrail.trailCount
    rw [hsize]
    cases T with
    | zero => omega
    | succ n => rfl
  refine ⟨(SpringTrail.trailPoint (SpringPoint.new config).position config i).1, ?_,
    rfl, fun s => rfl, ?_, ?_, rfl, rfl, ?_, ?_⟩
  · rw [SpringTrail.new_trail, hcount, List.getElem?_map, List.getElem?_range hi]
    rfl
  · show 8 / ((i : K) * 10 + 5) = _
    rw [mul_comm]
  · intro _
    show 1 / ((i : K) * 8) = _
    rw [mul_comm]
  · intro color h
    show config.color.getD _ = color
    rw [h]
    rfl
  · intro size h
    show config.size.getD _ = size
    rw [h]
    rfl

/-- C5 at the configuration of line 215 with three trail points, index 2. -/
theorem SpringTrail.new_trail_point_witness :
    (1 ≤ 3 ∧ (heartConfig 3).trailSize = some 3 ∧ 2 < 3) ∧
    ∃ p : SpringPoint ℚ, (SpringTrail.new (heartConfig 3)).1.trail[2]? = some p ∧
      p.target = .obj 0 ∧ p.damping = 8 / 25 ∧ p.elasticity = 1 / 16 ∧
      p.color = "rgba(230, 10, 40, 0.8)" ∧ p.size = 1.3 := by
  refine ⟨⟨by decide, rfl, by decide⟩, ?_⟩
  obtain ⟨p, hp, htarget, _, hdamping, helasticity, _, _, hcolor, hsize⟩ :=
    SpringTrail.new_trail_point (heartConfig 3) 3 2 (by decide) rfl (by decide)
  refine ⟨p, hp, htarget, ?_, ?_, hcolor _ rfl, hsize _ rfl⟩
  · rw [hdamping]
    norm_num
  · rw [helasticity (by decide)]
    norm_num

/-- C6: `SpringTrail.update()` applies the `SpringPoint` step once to the lead
and once to every trail point: the new trail is the old one with the step
mapped over it, and the new state of a trail point is determined by that
point alone, not by the lead or the other trail points. -/
theorem SpringTrail.update_maps_step (s : Store K) (c : SpringTrail K) :
    (SpringTrail.update s c).toSpringPoint = SpringPoint.update s c.toSpringPoint ∧
    (SpringTrail.update s c).trail = c.trail.map (SpringPoint.update s) ∧
    (SpringTrail.update s c).trail.length = c.trail.length ∧
    (∀ i : Nat, (SpringTrail.update s c).trail[i]? = (c.trail[i]?).map (SpringPoint.update s)) ∧
    (∀ (d : SpringTrail K) (i : Nat), d.trail[i]? = c.trail[i]? →
      (SpringTrail.update s d).trail[i]? = (SpringTrail.update s c).trail[i]?) := by
  refine ⟨rfl, rfl, ?_, ?_, ?_⟩
  · rw [SpringTrail.update_trail, List.length_map]
  · intro i
    rw [SpringTrail.update_trail, List.getElem?_map]
  · intro d i h
    rw [SpringTrail.update_trail, SpringTrail.update_trail, List.getElem?_map,
      List.getElem?_map, h]

/-! ## The motion field -/

/-- C7: `polar(angle, time)` is the specified curve point `(x s, -y s)`
translated by `origin + (pointer - origin) * 0.5`, a function of the angle,
the time, the pointer and the origin only; the translation is the midpoint of
origin and pointer. -/
theorem polar_eq_curve (m : Math K) (w : World K) (angle time : K) :
    polar m w angle time = curve m angle time w.io.mouse w.origin ∧
    polarShift w = ⟨(w.origin.x + w.io.mouse.x) / 2, (w.origin.y + w.io.mouse.y) / 2⟩ ∧
    (polar m w angle time).x =
      16 * m.sin (angle + m.sin (time / 100)) ^ 3 * ((m.sin (time / 10) + 3) * 4)
        + (w.origin.x + w.io.mouse.x) / 2 ∧
    (polar m w angle time).y =
      -(13 * m.cos (angle + m.sin (time / 100))
          - 5 * m.cos (2 * (angle + m.sin (time / 100)))
          - 2 * m.cos (3 * (angle + m.sin (time / 100)))
          - m.cos (4 * (angle + m.sin (time / 100)))) * ((m.sin (time / 10) + 3) * 4)
        + (w.origin.y + w.io.mouse.y) / 2 := by
  have hx : (polarShift w).x = (w.origin.x + w.io.mouse.x) / 2 := by
    simp only [polarShift, Vector.add_x, Vector.subtract_x, Vector.scale_x]
    norm_num
    ring
  have hy : (polarShift w).y = (w.origin.y + w.io.mouse.y) / 2 := by
    simp only [polarShift, Vector.add_y, Vector.subtract_y, Vector.scale_y]
    norm_num
    ring
  refine ⟨rfl, ?_, ?_, ?_⟩
  · ext
    · exact hx
    · exact hy
  · simp only [polar, Vector.add_x, Vector.new_x, hx]
  · simp only [polar, Vector.add_y, Vector.new_y, hy]

/-- C10, counterexample: on a canvas with origin `(400, 300)` and a pointer
that has never moved, the translation added by `polar` is `(200, 150)`, not
the origin. -/
theorem polarShift_idle_ne_origin :
    idleWorld.io = Io.new ∧ polarShift idleWorld = ⟨200, 150⟩ ∧
    polarShift idleWorld ≠ idleWorld.origin := by
  have h : polarShift idleWorld = ⟨200, 150⟩ := by
    ext <;> simp [polarShift, idleWorld, Io.new] <;> norm_num
  refine ⟨rfl, h, fun hne => ?_⟩
  rw [h] at hne
  have hx := congrArg Vector.x hne
  simp [idleWorld] at hx

/-- C10, amended: while the pointer has never moved it holds `(0,0)`, and the
translation added by `polar` is `origin * 0.5`, half-way between the corner
`(0,0)` and the canvas origin; it is the origin exactly when the origin is
`(0,0)`. -/
theorem polarShift_idle (w : World K) (hio : w.io = Io.new) :
    w.io.mouse = ⟨0, 0⟩ ∧
    polarShift w = w.origin.scale (some 0.5) ∧
    (polarShift w = w.origin ↔ w.origin = ⟨0, 0⟩) := by
  have hmouse : w.io.mouse = ⟨0, 0⟩ := by rw [hio]; rfl
  have hx : (polarShift w).x = w.origin.x * 0.5 := by
    simp only [polarShift, hmouse, Vector.add_x, Vector.subtract_x, Vector.scale_x]
    norm_num
    ring
  have hy : (polarShift w).y = w.origin.y * 0.5 := by
    simp only [polarShift, hmouse, Vector.add_y, Vector.subtract_y, Vector.scale_y]
    norm_num
    ring
  refine ⟨hmouse, ?_, ?_, ?_⟩
  · ext
    · exact hx
    · exact hy
  · intro h
    have h1 := congrArg Vector.x h
    have h2 := congrArg Vector.y h
    rw [hx] at h1
    rw [hy] at h2
    ext
    · show w.origin.x = 0
      norm_num at h1
      linarith
    · show w.origin.y = 0
      norm_num at h2
      linarith
  · intro h
    ext
    · rw [hx, h]
      simp
    · rw [hy, h]
      simp

/-- C10, amended, on the start-up globals of a canvas of 800 by 600. -/
theorem polarShift_idle_witness :
    idleWorld.io = Io.new ∧ polarShift idleWorld = idleWorld.origin.scale (some 0.5) :=
  ⟨rfl, (polarShift_idle idleWorld rfl).2.1⟩

/-! ## Recomputing the targets -/

/-- C8: for `n = targetsSize ≥ 2` distinct target objects, a run of
`updateTargets` in which no swap test succeeds returns, leaves the array as
it was, and leaves in `targets[i]` the motion field evaluated at
`i/(n-1) * 2π + u_i/10` and the current time, where `u_i` is the jitter draw
of iteration `i`; objects outside the array keep their contents. -/
theorem updateTargets_of_not_swap [FloorRing K] (m : Math K) (w : World K) (n : Nat)
    (hn : 2 ≤ n) (hsize : w.targetsSize = n) (hlen : w.targets.length = n)
    (hnodup : w.targets.Nodup)
    (hno : ∀ i : Nat, i < n → ¬ w.rng.draws (w.rng.pos + 2 * i + 1) < 0.004) :
    (n : K) - 1 ≠ 0 ∧
    ∃ w1 : World K, updateTargets m w = some w1 ∧ w1.targets = w.targets ∧
      (∀ i : Nat, i < n → ∃ id : Nat, w1.targets[i]? = some id ∧
        w1.store id =
          polar m w ((i : K) / ((n : K) - 1) * 2 * m.PI + w.rng.draws (w.rng.pos + 2 * i) / 10)
            (w.time : K)) ∧
      (∀ id : Nat, id ∉ w.targets → w1.store id = w.store id) := by
  subst hsize
  constructor
  · have h : (2 : K) ≤ (w.targetsSize : K) := by exact_mod_cast hn
    intro h0
    linarith
  · obtain ⟨w1, hw1, hinv⟩ := updateTargetsFrom_of_not_swap m w hlen hnodup hno
      w.targetsSize 0 w (by omega)
      { io_eq := rfl, objects_eq := rfl, origin_eq := rfl, targetsSize_eq := rfl,
        targets_eq := rfl, time_eq := rfl, draws_eq := rfl, pos_eq := rfl,
        assigned := fun j id hj _ => absurd hj (Nat.not_lt_zero j),
        others := fun _ _ => rfl }
    refine ⟨w1, hw1, hinv.targets_eq, ?_, hinv.others⟩
    intro i hi
    have hilen : i < w.targets.length := by omega
    refine ⟨w.targets[i], ?_, ?_⟩
    · rw [hinv.targets_eq, List.getElem?_eq_getElem hilen]
    · rw [hinv.assigned i w.targets[i] (by omega) (List.getElem?_eq_getElem hilen)]
      unfold targetValue
      rw [mul_right_comm]

/-- C8 on two targets with every draw `1/2`: both slots hold the motion field
at their own index. -/
theorem updateTargets_of_not_swap_witness :
    (2 ≤ 2 ∧ pairWorld.targetsSize = 2 ∧ pairWorld.targets.length = 2 ∧
      pairWorld.targets.Nodup ∧
      ∀ i : Nat, i < 2 → ¬ pairWorld.rng.draws (pairWorld.rng.pos + 2 * i + 1) < 0.004) ∧
    ∃ w1 : World ℚ, updateTargets coarseMath pairWorld = some w1 ∧
      w1.store 0 = polar coarseMath pairWorld (0 / (2 - 1) * 2 * (22 / 7) + 1 / 2 / 10) 1 ∧
      w1.store 1 = polar coarseMath pairWorld (1 / (2 - 1) * 2 * (22 / 7) + 1 / 2 / 10) 1 := by
  have hno : ∀ i : Nat, i < 2 →
      ¬ pairWorld.rng.draws (pairWorld.rng.pos + 2 * i + 1) < 0.004 := by
    intro i _
    show ¬ (1 / 2 : ℚ) < 0.004
    norm_num
  refine ⟨⟨by decide, rfl, rfl, by decide, hno⟩, ?_⟩
  obtain ⟨_, w1, hw1, htargets, hvalue, _⟩ :=
    updateTargets_of_not_swap coarseMath pairWorld 2 (by decide) rfl rfl (by decide) hno
  refine ⟨w1, hw1, ?_, ?_⟩
  · obtain ⟨id, hid, hstore⟩ := hvalue 0 (by decide)
    rw [htargets] at hid
    have h0 : id = 0 := (Option.some.inj hid).symm
    subst h0
    rw [hstore]
    simp [pairWorld, coarseMath]
  · obtain ⟨id, hid, hstore⟩ := hvalue 1 (by decide)
    rw [htargets] at hid
    have h1 : id = 1 := (Option.some.inj hid).symm
    subst h1
    rw [hstore]
    simp [pairWorld, coarseMath]

/-! ## Convergence of the lead -/

/-- C9: with elasticity `0.1`, damping `0.1` and the target held fixed, from
every initial position and velocity the distance from the position to the
target tends to 0 under repeated `update()`, and so does the velocity. -/
theorem SpringPoint.update_converges (s : Store ℝ) (p : SpringPoint ℝ)
    (helasticity : p.elasticity = 0.1) (hdamping : p.damping = 0.1) :
    Filter.Tendsto
      (fun n : ℕ => Vector.distance
        { sin := Real.sin, cos := Real.cos, sqrt := Real.sqrt, PI := Real.pi }
        (s.read ((SpringPoint.update s)^[n] p).position) (s.read p.target))
      Filter.atTop (nhds 0) ∧
    Filter.Tendsto (fun n : ℕ => (s.read ((SpringPoint.update s)^[n] p).velocity).x)
      Filter.atTop (nhds 0) ∧
    Filter.Tendsto (fun n : ℕ => (s.read ((SpringPoint.update s)^[n] p).velocity).y)
      Filter.atTop (nhds 0) := by
  have hframe := SpringPoint.iterate_update_frame s p
  have hX := spring_recurrence_tendsto
    (fun n => (s.read ((SpringPoint.update s)^[n] p).position).x - (s.read p.target).x)
    (fun n => (s.read ((SpringPoint.update s)^[n] p).velocity).x)
    (by
      intro n
      simp only [Function.iterate_succ_apply', SpringPoint.read_update_position, Vector.add_x]
      ring)
    (by
      intro n
      simp only [Function.iterate_succ_apply', SpringPoint.read_update_position,
        SpringPoint.read_update_velocity, Vector.add_x, Vector.subtract_x, Vector.scale_x,
        (hframe n).1, (hframe n).2.1, (hframe n).2.2, helasticity, hdamping]
      ring)
  have hY := spring_recurrence_tendsto
    (fun n => (s.read ((SpringPoint.update s)^[n] p).position).y - (s.read p.target).y)
    (fun n => (s.read ((SpringPoint.update s)^[n] p).velocity).y)
    (by
      intro n
      simp only [Function.iterate_succ_apply', SpringPoint.read_update_position, Vector.add_y]
      ring)
    (by
      intro n
      simp only [Function.iterate_succ_apply', SpringPoint.read_update_position,
        SpringPoint.read_update_velocity, Vector.add_y, Vector.subtract_y, Vector.scale_y,
        (hframe n).1, (hframe n).2.1, (hframe n).2.2, helasticity, hdamping]
      ring)
  refine ⟨?_, hX.2, hY.2⟩
  have hsum := (hX.1.mul hX.1).add (hY.1.mul hY.1)
  have hsqrt := (Real.continuous_sqrt.tendsto _).comp hsum
  simp only [mul_zero, add_zero, Real.sqrt_zero] at hsqrt
  exact hsqrt

/-- C9 from rest at `(0,0)` towards the target `(10,0)`. -/
theorem SpringPoint.update_converges_witness :
    ((0.1 : ℝ) = 0.1 ∧ (0.1 : ℝ) = 0.1) ∧
    Filter.Tendsto
      (fun n : ℕ => Vector.distance
        { sin := Real.sin, cos := Real.cos, sqrt := Real.sqrt, PI := Real.pi }
        (Store.read (fun _ => ⟨0, 0⟩ : Store ℝ) ((SpringPoint.update (fun _ => ⟨0, 0⟩))^[n]
          ({ position := .fresh ⟨0, 0⟩, color := "#f00", size := 3, velocity := .fresh ⟨0, 0⟩,
             target := .fresh ⟨10, 0⟩, elasticity := 0.1, damping := 0.1 }
            : SpringPoint ℝ)).position)
        (⟨10, 0⟩ : Vector ℝ))
      Filter.atTop (nhds 0) :=
  ⟨⟨rfl, rfl⟩, (SpringPoint.update_converges (fun _ => ⟨0, 0⟩ : Store ℝ)
    ({ position := .fresh ⟨0, 0⟩, color := "#f00", size := 3, velocity := .fresh ⟨0, 0⟩,
       target := .fresh ⟨10, 0⟩, elasticity := 0.1, damping := 0.1 } : SpringPoint ℝ)
    rfl rfl).1⟩

/-! ## Vector arithmetic -/

/-- C11: for all vectors `a` and `b`, `a.add(b).subtract(b)` equals `a`,
componentwise and as a vector. -/
theorem Vector.add_subtract_cancel (a b : Vector K) :
    (a.add b).subtract b = a ∧
    ((a.add b).subtract b).x = a.x ∧ ((a.add b).subtract b).y = a.y := by
  have hx : ((a.add b).subtract b).x = a.x := by
    rw [Vector.subtract_x, Vector.add_x]
    ring
  have hy : ((a.add b).subtract b).y = a.y := by
    rw [Vector.subtract_y, Vector.add_y]
    ring
  exact ⟨Vector.ext hx hy, hx, hy⟩

/-- C12: for every vector `a`, `a.scale(1)` equals `a`, `a.scale()` with the
factor omitted equals `a` as well, and `a.scale(0)` equals `(0,0)`. -/
theorem Vector.scale_one_zero (a : Vector K) :
    a.scale (some 1) = a ∧ a.scale none = a ∧ a.scale (some 0) = ⟨0, 0⟩ := by
  refine ⟨?_, ?_, ?_⟩
  · ext
    · rw [Vector.scale_x, mul_one]
    · rw [Vector.scale_y, mul_one]
  · ext
    · show a.x * 1 = a.x
      rw [mul_one]
    · show a.y * 1 = a.y
      rw [mul_one]
  · ext
    · rw [Vector.scale_x, mul_zero]
    · rw [Vector.scale_y, mul_zero]

/-- C13: `reflect()` negates both components, and for every vector `a`,
`a.reflect().reflect()` equals `a`. -/
theorem Vector.reflect_reflect (a : Vector K) :
    a.reflect.reflect = a ∧ a.reflect.x = -a.x ∧ a.reflect.y = -a.y := by
  refine ⟨?_, rfl, rfl⟩
  ext
  · show - -a.x = a.x
    rw [neg_neg]
  · show - -a.y = a.y
    rw [neg_neg]

/-- C14: for every vector `a`, `a.length()` equals `a.distance(new Vector())`,
the distance from `a` to `(0,0)`, whatever function `Math.sqrt` is. -/
theorem Vector.length_eq_distance_zero (m : Math K) (a : Vector K) :
    a.length m = a.distance m (Vector.new none none) ∧
    (Vector.new none none : Vector K) = ⟨0, 0⟩ := by
  refine ⟨?_, rfl⟩
  show m.sqrt (a.x * a.x + a.y * a.y) = m.sqrt ((a.x - 0) * (a.x - 0) + (a.y - 0) * (a.y - 0))
  rw [sub_zero, sub_zero]

/-! ## The scale and the period of the motion field -/

/-- C15: with the real sine, for every time the base term `sin(time/10) + 3`
lies in `[2,4]` and the scale factor `(sin(time/10) + 3) * 4` that `polar`
multiplies the curve point by lies in `[8,16]`, hence is positive. -/
theorem polarScale_pos (time : ℝ) :
    (2 ≤ Real.sin (time / 10) + 3 ∧ Real.sin (time / 10) + 3 ≤ 4) ∧
    (8 ≤ polarScale { sin := Real.sin, cos := Real.cos, sqrt := Real.sqrt, PI := Real.pi } time ∧
     polarScale { sin := Real.sin, cos := Real.cos, sqrt := Real.sqrt, PI := Real.pi } time
       ≤ 16) ∧
    0 < polarScale { sin := Real.sin, cos := Real.cos, sqrt := Real.sqrt, PI := Real.pi } time ∧
    (∀ (w : World ℝ) (angle : ℝ),
      polar { sin := Real.sin, cos := Real.cos, sqrt := Real.sqrt, PI := Real.pi } w angle time =
        (Vector.new
          (some (16 * Real.sin (angle + Real.sin (time / 100)) ^ 3 *
            polarScale { sin := Real.sin, cos := Real.cos, sqrt := Real.sqrt, PI := Real.pi }
              time))
          (some (-(13 * Real.cos (angle + Real.sin (time / 100))
              - 5 * Real.cos (2 * (angle + Real.sin (time / 100)))
              - 2 * Real.cos (3 * (angle + Real.sin (time / 100)))
              - Real.cos (4 * (angle + Real.sin (time / 100)))) *
            polarScale { sin := Real.sin, cos := Real.cos, sqrt := Real.sqrt, PI := Real.pi }
              time))).add (polarShift w)) := by
  have hlo := Real.neg_one_le_sin (time / 10)
  have hhi := Real.sin_le_one (time / 10)
  have h := polarScale_mem
    { sin := Real.sin, cos := Real.cos, sqrt := Real.sqrt, PI := Real.pi } time hlo hhi
  refine ⟨⟨by linarith, by linarith⟩, h, by linarith [h.1], fun w angle => rfl⟩

/-- C18: with the real sine and cosine the motion field has period `2π` in
the angle, so with `n + 2` targets and no jitter the last target (index
`n + 1`, angle `2π`) coincides with the first (index 0, angle 0). -/
theorem polar_periodic (w : World ℝ) (angle time : ℝ) (n : Nat) :
    polar { sin := Real.sin, cos := Real.cos, sqrt := Real.sqrt, PI := Real.pi } w
        (angle + 2 * Real.pi) time =
      polar { sin := Real.sin, cos := Real.cos, sqrt := Real.sqrt, PI := Real.pi } w angle time ∧
    lerp { sin := Real.sin, cos := Real.cos, sqrt := Real.sqrt, PI := Real.pi } (n + 2) 0 0 = 0 ∧
    lerp { sin := Real.sin, cos := Real.cos, sqrt := Real.sqrt, PI := Real.pi } (n + 2) (n + 1) 0
      = 2 * Real.pi ∧
    polar { sin := Real.sin, cos := Real.cos, sqrt := Real.sqrt, PI := Real.pi } w
        (lerp { sin := Real.sin, cos := Real.cos, sqrt := Real.sqrt, PI := Real.pi }
          (n + 2) (n + 1) 0) time =
      polar { sin := Real.sin, cos := Real.cos, sqrt := Real.sqrt, PI := Real.pi } w
        (lerp { sin := Real.sin, cos := Real.cos, sqrt := Real.sqrt, PI := Real.pi }
          (n + 2) 0 0) time := by
  have hperiod : ∀ a : ℝ,
      polar { sin := Real.sin, cos := Real.cos, sqrt := Real.sqrt, PI := Real.pi } w
          (a + 2 * Real.pi) time =
        polar { sin := Real.sin, cos := Real.cos, sqrt := Real.sqrt, PI := Real.pi } w a time := by
    intro a
    have hs : Real.sin (a + 2 * Real.pi + Real.sin (time / 100))
        = Real.sin (a + Real.sin (time / 100)) := by
      rw [show a + 2 * Real.pi + Real.sin (time / 100)
        = a + Real.sin (time / 100) + 2 * Real.pi by ring]
      exact Real.sin_add_two_pi _
    have hc1 : Real.cos (a + 2 * Real.pi + Real.sin (time / 100))
        = Real.cos (a + Real.sin (time / 100)) := by
      rw [show a + 2 * Real.pi + Real.sin (time / 100)
        = a + Real.sin (time / 100) + 2 * Real.pi by ring]
      exact Real.cos_add_two_pi _
    have hc2 : Real.cos (2 * (a + 2 * Real.pi + Real.sin (time / 100)))
        = Real.cos (2 * (a + Real.sin (time / 100))) := by
      rw [show 2 * (a + 2 * Real.pi + Real.sin (time / 100))
        = 2 * (a + Real.sin (time / 100)) + (2 : ℕ) * (2 * Real.pi) by push_cast; ring]
      exact Real.cos_add_nat_mul_two_pi _ 2
    have hc3 : Real.cos (3 * (a + 2 * Real.pi + Real.sin (time / 100)))
        = Real.cos (3 * (a + Real.sin (time / 100))) := by
      rw [show 3 * (a + 2 * Real.pi + Real.sin (time / 100))
        = 3 * (a + Real.sin (time / 100)) + (3 : ℕ) * (2 * Real.pi) by push_cast; ring]
      exact Real.cos_add_nat_mul_two_pi _ 3
    have hc4 : Real.cos (4 * (a + 2 * Real.pi + Real.sin (time / 100)))
        = Real.cos (4 * (a + Real.sin (time / 100))) := by
      rw [show 4 * (a + 2 * Real.pi + Real.sin (time / 100))
        = 4 * (a + Real.sin (time / 100)) + (4 : ℕ) * (2 * Real.pi) by push_cast; ring]
      exact Real.cos_add_nat_mul_two_pi _ 4
    simp only [polar, hs, hc1, hc2, hc3, hc4]
  have hfirst : lerp { sin := Real.sin, cos := Real.cos, sqrt := Real.sqrt, PI := Real.pi }
      (n + 2) 0 0 = 0 := by
    simp [lerp]
  have hlast : lerp { sin := Real.sin, cos := Real.cos, sqrt := Real.sqrt, PI := Real.pi }
      (n + 2) (n + 1) 0 = 2 * Real.pi := by
    have hne : ((n : ℝ) + 1) ≠ 0 := by positivity
    simp only [lerp, Nat.cast_add, Nat.cast_one, Nat.cast_ofNat, zero_div, add_zero]
    rw [show (n : ℝ) + 2 - 1 = (n : ℝ) + 1 by ring, div_self hne]
    ring
  refine ⟨hperiod angle, hfirst, hlast, ?_⟩
  rw [hlast, hfirst]
  have h := hperiod 0
  rw [zero_add] at h
  exact h

/-! ## The coefficients and the initial state of a new chain -/

/-- C19: in a freshly constructed chain the lead and every trail point sit on
the constructor's target with velocity `(0,0)`, every trail point has the
lead's target as its target, and the lead has the configured elasticity and
damping (0.1 each when absent), not the values written for the trail. -/
theorem SpringTrail.new_at_rest (config : Config K) :
    (SpringTrail.new config).1.position = config.target.getD (.fresh ⟨0, 0⟩) ∧
    (SpringTrail.new config).1.target = config.target.getD (.fresh ⟨0, 0⟩) ∧
    (SpringTrail.new config).1.velocity = .fresh ⟨0, 0⟩ ∧
    (SpringTrail.new config).1.elasticity = config.elasticity.getD 0.1 ∧
    (SpringTrail.new config).1.damping = config.damping.getD 0.1 ∧
    (∀ p : SpringPoint K, p ∈ (SpringTrail.new config).1.trail →
      p.position = config.target.getD (.fresh ⟨0, 0⟩) ∧
      p.target = (SpringTrail.new config).1.target ∧
      p.velocity = .fresh ⟨0, 0⟩) ∧
    (∀ (s : Store K) (p : SpringPoint K), p ∈ (SpringTrail.new config).1.trail →
      s.read p.position = s.read (SpringTrail.new config).1.target ∧
      s.read p.target = s.read (SpringTrail.new config).1.target ∧
      s.read p.velocity = ⟨0, 0⟩ ∧
      s.read (SpringTrail.new config).1.position = s.read (SpringTrail.new config).1.target ∧
      s.read (SpringTrail.new config).1.velocity = ⟨0, 0⟩) := by
  have htrail : ∀ p : SpringPoint K, p ∈ (SpringTrail.new config).1.trail →
      p.position = config.target.getD (.fresh ⟨0, 0⟩) ∧
      p.target = (SpringTrail.new config).1.target ∧
      p.velocity = .fresh ⟨0, 0⟩ := by
    intro p hp
    rw [SpringTrail.new_trail, List.mem_map] at hp
    obtain ⟨i, _, hi⟩ := hp
    rw [← hi]
    exact ⟨rfl, rfl, rfl⟩
  refine ⟨rfl, rfl, rfl, rfl, rfl, htrail, ?_⟩
  intro s p hp
  obtain ⟨hposition, htarget, hvelocity⟩ := htrail p hp
  rw [hposition, htarget, hvelocity]
  exact ⟨rfl, rfl, rfl, rfl, rfl⟩

/-! ## The random swap -/

/-- C20: for a target list of length `n ≥ 1` and two draws in `[0,1)`, the
indices `floor(u1 n)` and `floor(u2 n)` of the swap lie in `[0, n-1]`, and the
swap returns a list of the same length that is a permutation of the list, the
list itself when the indices coincide. -/
theorem swapTargets_in_range [FloorRing K] (targets : List Nat) (r : Rng K)
    (hn : 1 ≤ targets.length)
    (hu1 : 0 ≤ r.draws r.pos ∧ r.draws r.pos < 1)
    (hu2 : 0 ≤ r.draws (r.pos + 1) ∧ r.draws (r.pos + 1) < 1) :
    (random r (some 0) (some (targets.length : K))).1 = r.draws r.pos * (targets.length : K) ∧
    (random (random r (some 0) (some (targets.length : K))).2 (some 0)
        (some (targets.length : K))).1 = r.draws (r.pos + 1) * (targets.length : K) ∧
    (0 ≤ Int.floor (r.draws r.pos * (targets.length : K)) ∧
      Int.floor (r.draws r.pos * (targets.length : K)) ≤ (targets.length : Int) - 1) ∧
    (0 ≤ Int.floor (r.draws (r.pos + 1) * (targets.length : K)) ∧
      Int.floor (r.draws (r.pos + 1) * (targets.length : K)) ≤ (targets.length : Int) - 1) ∧
    ∃ swapped : List Nat,
      swapTargets targets (Int.floor (r.draws r.pos * (targets.length : K)))
        (Int.floor (r.draws (r.pos + 1) * (targets.length : K))) = some swapped ∧
      swapped.length = targets.length ∧ swapped.Perm targets ∧
      (Int.floor (r.draws r.pos * (targets.length : K))
          = Int.floor (r.draws (r.pos + 1) * (targets.length : K)) → swapped = targets) := by
  obtain ⟨hv1, hlo1, hhi1, hlt1⟩ := floor_random_mem r targets.length hn hu1.1 hu1.2
  obtain ⟨hv2, hlo2, hhi2, hlt2⟩ :=
    floor_random_mem (random r (some 0) (some (targets.length : K))).2 targets.length hn
      hu2.1 hu2.2
  rw [hv1] at hlo1 hhi1 hlt1
  have hv2r : (random (random r (some 0) (some (targets.length : K))).2 (some 0)
      (some (targets.length : K))).1 = r.draws (r.pos + 1) * (targets.length : K) := hv2
  rw [hv2r] at hlo2 hhi2 hlt2
  refine ⟨hv1, hv2r, ⟨hlo1, hhi1⟩, ⟨hlo2, hhi2⟩, _,
    swapTargets_of_lt targets _ _ hlo1 hlo2 hlt1 hlt2, ?_, ?_, ?_⟩
  · rw [List.length_set, List.length_set]
  · exact swap_entries_perm targets _ _ hlt1 hlt2
  · intro heq
    exact swap_entries_same targets _ _ hlt1 hlt2 (congrArg Int.toNat heq)

/-- C20 on the two targets of `pairWorld`, both draws being `1/2`: both
indices are 1 and the list is unchanged. -/
theorem swapTargets_in_range_witness :
    (1 ≤ pairWorld.targets.length ∧
      (0 ≤ pairWorld.rng.draws pairWorld.rng.pos ∧ pairWorld.rng.draws pairWorld.rng.pos < 1) ∧
      (0 ≤ pairWorld.rng.draws (pairWorld.rng.pos + 1) ∧
        pairWorld.rng.draws (pairWorld.rng.pos + 1) < 1)) ∧
    ∃ swapped : List Nat,
      swapTargets pairWorld.targets
        (Int.floor (pairWorld.rng.draws pairWorld.rng.pos * (pairWorld.targets.length : ℚ)))
        (Int.floor (pairWorld.rng.draws (pairWorld.rng.pos + 1)
          * (pairWorld.targets.length : ℚ))) = some swapped ∧
      swapped.length = 2 ∧ swapped.Perm [0, 1] := by
  have hu : (0 : ℚ) ≤ 1 / 2 ∧ (1 / 2 : ℚ) < 1 := by norm_num
  refine ⟨⟨by decide, hu, hu⟩, ?_⟩
  obtain ⟨_, _, _, _, swapped, hswap, hlen, hperm, _⟩ :=
    swapTargets_in_range pairWorld.targets pairWorld.rng (by decide) hu hu
  exact ⟨swapped, hswap, hlen, hperm⟩

/-! ## Parameters for which the spring does not settle -/

/-- C16, counterexample: elasticity 2 with damping `1/2` satisfies
`elasticity ≥ 2`, yet there is no initial state from which the distance to the
fixed target fails to tend to 0. -/
theorem SpringPoint.elasticity_two_converges :
    (2 ≤ (2 : ℝ) ∨ 2 ≤ (1 / 2 : ℝ)) ∧
    ¬ ∃ (s : Store ℝ) (p : SpringPoint ℝ), p.elasticity = 2 ∧ p.damping = 1 / 2 ∧
      s.read p.position ≠ s.read p.target ∧
      ¬ Filter.Tendsto
        (fun n : ℕ => Vector.distance
          { sin := Real.sin, cos := Real.cos, sqrt := Real.sqrt, PI := Real.pi }
          (s.read ((SpringPoint.update s)^[n] p).position) (s.read p.target))
        Filter.atTop (nhds 0) := by
  refine ⟨Or.inl le_rfl, ?_⟩
  rintro ⟨s, p, he, hd, _, hnot⟩
  apply hnot
  apply SpringPoint.tendsto_of_underdamped s p
  · rw [hd]
    norm_num
  · rw [hd]
    norm_num
  · rw [he, hd]
    norm_num

/-- C16, amended: with the target held fixed, whenever `damping ≥ 2` or
`elasticity + 2 damping ≥ 4` there is an initial state away from the target
from which the distance between position and target stays at least 1 under
repeated `update()`, so it does not tend to 0. -/
theorem SpringPoint.update_diverges (e d : ℝ) (h : 2 ≤ d ∨ 4 ≤ e + 2 * d) :
    ∃ (s : Store ℝ) (p : SpringPoint ℝ), p.elasticity = e ∧ p.damping = d ∧
      s.read p.position ≠ s.read p.target ∧
      (∀ n : ℕ, 1 ≤ Vector.distance
        { sin := Real.sin, cos := Real.cos, sqrt := Real.sqrt, PI := Real.pi }
        (s.read ((SpringPoint.update s)^[n] p).position) (s.read p.target)) ∧
      ¬ Filter.Tendsto
        (fun n : ℕ => Vector.distance
          { sin := Real.sin, cos := Real.cos, sqrt := Real.sqrt, PI := Real.pi }
          (s.read ((SpringPoint.update s)^[n] p).position) (s.read p.target))
        Filter.atTop (nhds 0) := by
  obtain ⟨q, hq, hq1⟩ := spring_root e d h
  have hfar : ∀ n : ℕ, 1 ≤ Vector.distance
      { sin := Real.sin, cos := Real.cos, sqrt := Real.sqrt, PI := Real.pi }
      (Store.read (fun _ => ⟨0, 0⟩) ((SpringPoint.update (fun _ => ⟨0, 0⟩))^[n]
        ({ position := .fresh ⟨1, 0⟩, color := "#f00", size := 3,
           velocity := .fresh ⟨q - 1, 0⟩, target := .fresh ⟨0, 0⟩, elasticity := e,
           damping := d } : SpringPoint ℝ)).position)
      (⟨0, 0⟩ : Vector ℝ) := by
    intro n
    rw [(SpringPoint.iterate_on_root (fun _ => ⟨0, 0⟩) e d q hq n).1]
    show 1 ≤ Real.sqrt ((q ^ n - 0) * (q ^ n - 0) + (0 - 0) * (0 - 0))
    rw [sub_zero, sub_zero, mul_zero, add_zero, Real.sqrt_mul_self_eq_abs, abs_pow]
    exact one_le_pow₀ hq1
  refine ⟨fun _ => ⟨0, 0⟩,
    { position := .fresh ⟨1, 0⟩, color := "#f00", size := 3, velocity := .fresh ⟨q - 1, 0⟩,
      target := .fresh ⟨0, 0⟩, elasticity := e, damping := d }, rfl, rfl, ?_, hfar, ?_⟩
  · intro heq
    have hx := congrArg Vector.x heq
    simp at hx
  · intro hlim
    have h1 : (1 : ℝ) ≤ 0 := ge_of_tendsto' hlim hfar
    linarith

/-- C16, amended, at elasticity `0.1` and damping 2. -/
theorem SpringPoint.update_diverges_witness :
    (2 ≤ (2 : ℝ) ∨ 4 ≤ (0.1 : ℝ) + 2 * 2) ∧
    ∃ (s : Store ℝ) (p : SpringPoint ℝ), p.elasticity = 0.1 ∧ p.damping = 2 ∧
      s.read p.position ≠ s.read p.target ∧
      ¬ Filter.Tendsto
        (fun n : ℕ => Vector.distance
          { sin := Real.sin, cos := Real.cos, sqrt := Real.sqrt, PI := Real.pi }
          (s.read ((SpringPoint.update s)^[n] p).position) (s.read p.target))
        Filter.atTop (nhds 0) := by
  refine ⟨Or.inl le_rfl, ?_⟩
  obtain ⟨s, p, he, hd, hne, _, hnot⟩ := SpringPoint.update_diverges 0.1 2 (Or.inl le_rfl)
  exact ⟨s, p, he, hd, hne, hnot⟩

end VD
